import Mathlib

/-!
Shallow embedding of `instarchiver-backend`'s `instagram/views/stories.py`
(`StoryListView`, `StoryDetailView`, `StorySimilarView`) together with the
collaborators those views use (query-parameter cache keys, the response
cache, the story/user data model with its `has_stories`/`has_history`
annotations, search filtering and pagination), and proofs of the
specification's claims about them.

Sections:
1. Query-parameter model and the cache key of `StoryListView.list`
   (`json.dumps(sorted(dict(request.query_params).items()), sort_keys=True)`
   fed through `hashlib.md5(...).hexdigest()`).
2. The response-cache state machine of `StoryListView.list`.
3. The story/user data model and the three views' query sets.
4. Pagination (page-size negotiation), modelled from the spec because
   `instagram/paginations.py` is outside the provided sources.
-/

set_option maxRecDepth 100000

namespace InstArchiver

/-! ### §1.1  Python tuple ordering used by `sorted(params.items())`

`dict(request.query_params)` is a map from parameter name to the list of
values supplied for that name; `sorted(params.items())` sorts the
`(key, value_list)` tuples by Python's lexicographic tuple order:
strings compare by code points, tuples and lists lexicographically. -/

/-- Three-way comparison of natural numbers. -/
def natCmp (a b : Nat) : Ordering :=
  if a < b then .lt else if b < a then .gt else .eq

/-- Three-way comparison of characters by code point, as Python compares
the characters of two strings. -/
def charCmp (a b : Char) : Ordering :=
  natCmp a.toNat b.toNat

/-- Lexicographic three-way comparison of lists, as Python compares
strings, lists and tuples element by element. -/
def lexCmp (c : α → α → Ordering) : List α → List α → Ordering
  | [], [] => .eq
  | [], _ :: _ => .lt
  | _ :: _, [] => .gt
  | a :: as, b :: bs => (c a b).then (lexCmp c as bs)

/-- Python's string comparison: code-point lexicographic. -/
def strCmp (a b : String) : Ordering :=
  lexCmp charCmp a.data b.data

/-- Python's comparison of the `(key, value_list)` tuples produced by
`params.items()`: first the key strings, then the value lists. -/
def pairCmp (p q : String × List String) : Ordering :=
  (strCmp p.1 q.1).then (lexCmp strCmp p.2 q.2)

/-- The `≤` used to sort parameter items (Python `sorted` produces a list
ascending under this relation). -/
def pairLe (p q : String × List String) : Bool :=
  pairCmp p q ≠ Ordering.gt

/-- A lawful three-way comparison: `eq` exactly on equal arguments,
antisymmetric under `swap`, transitive on `lt`. -/
def LawfulCmp (c : α → α → Ordering) : Prop :=
  (∀ a b, c a b = .eq ↔ a = b) ∧
  (∀ a b, (c a b).swap = c b a) ∧
  (∀ a b d, c a b = .lt → c b d = .lt → c a d = .lt)

/-- A query-parameter mapping as `dict(request.query_params)` yields it:
each parameter name paired with the ordered list of values that arrived
under that name. -/
abbrev Params := List (String × List String)

/-- The keys of a parameter mapping are pairwise distinct (true of every
mapping a `QueryDict` produces). -/
def KeysNodup (ps : Params) : Prop :=
  (ps.map Prod.fst).Nodup

instance (ps : Params) : Decidable (KeysNodup ps) := by
  unfold KeysNodup; infer_instance

/-- The item order as a relation, for sorting. -/
def paramLe (p q : String × List String) : Prop :=
  pairLe p q = true

instance : DecidableRel paramLe := fun p q => by
  unfold paramLe; infer_instance

/-- `sorted(params.items())`: Python's `sorted` is the stable ascending
sort under the tuple order, i.e. insertion sort extensionally. -/
def sortedParams (ps : Params) : Params :=
  ps.insertionSort paramLe

/-- `QueryDict` grouping: the distinct parameter names in order of first
arrival. -/
def keysInOrder (raw : List (String × String)) : List String :=
  raw.foldl (fun ks p => if p.1 ∈ ks then ks else ks ++ [p.1]) []

/-- `dict(request.query_params)`: each arriving `key=value` pair grouped
under its key, values kept in arrival order. -/
def groupParams (raw : List (String × String)) : Params :=
  (keysInOrder raw).map (fun k => (k, (raw.filter (fun p => p.1 = k)).map (fun p => p.2)))

/-- The value list a parameter mapping associates with a key. -/
def lookupParam (ps : Params) (k : String) : Option (List String) :=
  (ps.find? (fun p => p.1 = k)).map (fun p => p.2)

/-- Two parameter mappings are equal as mappings: every key is bound to
the same ordered value list (or absent) in both. -/
def paramsEqual (p1 p2 : Params) : Prop :=
  ∀ k, lookupParam p1 k = lookupParam p2 k

instance (p1 p2 : Params) : Decidable (paramsEqual p1 p2) :=
  decidable_of_iff
    (∀ k ∈ p1.map Prod.fst ++ p2.map Prod.fst, lookupParam p1 k = lookupParam p2 k)
    (by
      constructor
      · intro h k
        by_cases hk : k ∈ p1.map Prod.fst ++ p2.map Prod.fst
        · exact h k hk
        · rw [List.mem_append, not_or] at hk
          have e1 : lookupParam p1 k = none := by
            unfold lookupParam
            rw [List.find?_eq_none.mpr]
            · rfl
            intro p hp hpk
            exact hk.1 (List.mem_map.mpr ⟨p, hp, by simpa using hpk⟩)
          have e2 : lookupParam p2 k = none := by
            unfold lookupParam
            rw [List.find?_eq_none.mpr]
            · rfl
            intro p hp hpk
            exact hk.2 (List.mem_map.mpr ⟨p, hp, by simpa using hpk⟩)
          rw [e1, e2]
      · intro h k _
        exact h k)

/-! ### §1.2  `json.dumps(..., sort_keys=True)` of the sorted item list

The serialized value is a JSON array of two-element arrays
`[key, [v1, v2, ...]]`, with `json.dumps`'s default separators
(`", "`), default `ensure_ascii=True` escaping, and strings quoted. -/

/-- Lowercase hexadecimal digit, as `json.dumps` and `md5.hexdigest` use. -/
def hexDigit (n : Nat) : Char :=
  if n < 10 then Char.ofNat (48 + n) else Char.ofNat (87 + n)

/-- Four lowercase hex digits, the `XXXX` of a `\uXXXX` escape. -/
def hex4 (n : Nat) : List Char :=
  [hexDigit (n / 4096 % 16), hexDigit (n / 256 % 16),
   hexDigit (n / 16 % 16), hexDigit (n % 16)]

/-- `json.dumps`'s escaping of one character with `ensure_ascii=True`:
backslash and quote get two-character escapes, the five control
characters `\b \t \n \f \r` their short escapes, every other character
outside printable ASCII `0x20..0x7e` a `\uXXXX` escape (a surrogate pair
of escapes beyond `0xFFFF`). -/
def escapeChar (c : Char) : List Char :=
  if c = '\\' then ['\\', '\\']
  else if c = '"' then ['\\', '"']
  else if c.toNat = 8 then ['\\', 'b']
  else if c.toNat = 9 then ['\\', 't']
  else if c.toNat = 10 then ['\\', 'n']
  else if c.toNat = 12 then ['\\', 'f']
  else if c.toNat = 13 then ['\\', 'r']
  else if c.toNat < 32 ∨ 126 < c.toNat then
    if c.toNat < 65536 then '\\' :: 'u' :: hex4 c.toNat
    else ('\\' :: 'u' :: hex4 (55296 + (c.toNat - 65536) / 1024)) ++
         ('\\' :: 'u' :: hex4 (56320 + (c.toNat - 65536) % 1024))
  else [c]

/-- A JSON string literal: quote, escaped body, quote. -/
def encStr (s : String) : List Char :=
  '"' :: s.data.flatMap escapeChar ++ ['"']

/-- `", ".join` of already-encoded items. -/
def encItems (enc : α → List Char) : List α → List Char
  | [] => []
  | [x] => enc x
  | x :: y :: xs => enc x ++ ',' :: ' ' :: encItems enc (y :: xs)

/-- A JSON array with `json.dumps`'s default `", "` separator. -/
def encList (enc : α → List Char) (xs : List α) : List Char :=
  '[' :: encItems enc xs ++ [']']

/-- One `(key, value_list)` item, serialized as the two-element JSON
array `[key, [v1, ...]]`. -/
def encPair (p : String × List String) : List Char :=
  '[' :: encStr p.1 ++ ',' :: ' ' :: encList encStr p.2 ++ [']']

/-- `params_key = json.dumps(sorted(params.items()), sort_keys=True)`,
as a list of characters. -/
def params_key (ps : Params) : List Char :=
  encList encPair (sortedParams ps)

/-! ### §1.3  `hashlib.md5(params_key.encode()).hexdigest()`

A complete MD5 over byte lists, `% 2 ^ 32` arithmetic on `Nat`. -/

/-- UTF-8 encoding of one character (`str.encode()`). -/
def utf8Char (c : Char) : List Nat :=
  let n := c.toNat
  if n < 128 then [n]
  else if n < 2048 then [192 + n / 64, 128 + n % 64]
  else if n < 65536 then [224 + n / 4096, 128 + n / 64 % 64, 128 + n % 64]
  else [240 + n / 262144, 128 + n / 4096 % 64, 128 + n / 64 % 64, 128 + n % 64]

/-- UTF-8 encoding of a string (`str.encode()`), as a byte list. -/
def utf8 (s : List Char) : List Nat :=
  s.flatMap utf8Char

/-- The 64 MD5 round constants `floor(abs(sin(i+1)) * 2^32)`. -/
def mdK : List Nat :=
  [3614090360, 3905402710, 606105819, 3250441966, 4118548399, 1200080426,
   2821735955, 4249261313, 1770035416, 2336552879, 4294925233, 2304563134,
   1804603682, 4254626195, 2792965006, 1236535329, 4129170786, 3225465664,
   643717713, 3921069994, 3593408605, 38016083, 3634488961, 3889429448,
   568446438, 3275163606, 4107603335, 1163531501, 2850285829, 4243563512,
   1735328473, 2368359562, 4294588738, 2272392833, 1839030562, 4259657740,
   2763975236, 1272893353, 4139469664, 3200236656, 681279174, 3936430074,
   3572445317, 76029189, 3654602809, 3873151461, 530742520, 3299628645,
   4096336452, 1126891415, 2878612391, 4237533241, 1700485571, 2399980690,
   4293915773, 2240044497, 1873313359, 4264355552, 2734768916, 1309151649,
   4149444226, 3174756917, 718787259, 3951481745]

/-- The 64 MD5 per-round left-rotation amounts. -/
def mdS : List Nat :=
  [7, 12, 17, 22, 7, 12, 17, 22, 7, 12, 17, 22, 7, 12, 17, 22,
   5, 9, 14, 20, 5, 9, 14, 20, 5, 9, 14, 20, 5, 9, 14, 20,
   4, 11, 16, 23, 4, 11, 16, 23, 4, 11, 16, 23, 4, 11, 16, 23,
   6, 10, 15, 21, 6, 10, 15, 21, 6, 10, 15, 21, 6, 10, 15, 21]

/-- 32-bit left rotation of `x < 2^32` by `s ≤ 32`. -/
def rotl32 (x s : Nat) : Nat :=
  ((x <<< s) % 4294967296) ||| (x >>> (32 - s))

/-- The MD5 round function for round `i`. -/
def md5F (i b c d : Nat) : Nat :=
  if i < 16 then (b &&& c) ||| ((b ^^^ 4294967295) &&& d)
  else if i < 32 then (d &&& b) ||| ((d ^^^ 4294967295) &&& c)
  else if i < 48 then b ^^^ c ^^^ d
  else c ^^^ (b ||| (d ^^^ 4294967295))

/-- The MD5 message-word index for round `i`. -/
def md5G (i : Nat) : Nat :=
  if i < 16 then i
  else if i < 32 then (5 * i + 1) % 16
  else if i < 48 then (3 * i + 5) % 16
  else (7 * i) % 16

/-- One MD5 round applied to the state `(a, b, c, d)`. -/
def md5Step (M : List Nat) (st : Nat × Nat × Nat × Nat) (i : Nat) :
    Nat × Nat × Nat × Nat :=
  let f := (md5F i st.2.1 st.2.2.1 st.2.2.2 + st.1 +
            mdK.getD i 0 + M.getD (md5G i) 0) % 4294967296
  (st.2.2.2, (st.2.1 + rotl32 f (mdS.getD i 0)) % 4294967296,
   st.2.1, st.2.2.1)

/-- Process one 16-word chunk: 64 rounds, then add the incoming state. -/
def md5Chunk (st : Nat × Nat × Nat × Nat) (M : List Nat) :
    Nat × Nat × Nat × Nat :=
  let r := (List.range 64).foldl (md5Step M) st
  ((st.1 + r.1) % 4294967296, (st.2.1 + r.2.1) % 4294967296,
   (st.2.2.1 + r.2.2.1) % 4294967296, (st.2.2.2 + r.2.2.2) % 4294967296)

/-- Group a byte list into little-endian 32-bit words. -/
def toWordsLE : List Nat → List Nat
  | b0 :: b1 :: b2 :: b3 :: rest =>
    (b0 + 256 * b1 + 65536 * b2 + 16777216 * b3) :: toWordsLE rest
  | _ => []

/-- Little-endian 8-byte encoding of the 64-bit message bit length. -/
def le64 (n : Nat) : List Nat :=
  [n % 256, n / 256 % 256, n / 65536 % 256, n / 16777216 % 256,
   n / 4294967296 % 256, n / 1099511627776 % 256,
   n / 281474976710656 % 256, n / 72057594037927936 % 256]

/-- MD5 padding: `0x80`, zeros to 56 mod 64, 8-byte little-endian bit
length. -/
def md5Pad (msg : List Nat) : List Nat :=
  let z := (120 - (msg.length + 1) % 64) % 64
  msg ++ 128 :: List.replicate z 0 ++ le64 ((8 * msg.length) % 18446744073709551616)

/-- Split the padded byte list into 64-byte chunks (fuel-indexed; the
fuel always suffices for a list of the given length). -/
def chunks64 : Nat → List Nat → List (List Nat)
  | _, [] => []
  | 0, _ :: _ => []
  | fuel + 1, l => l.take 64 :: chunks64 fuel (l.drop 64)

/-- The MD5 digest of a byte list, as the four 32-bit state words. -/
def md5Words (msg : List Nat) : Nat × Nat × Nat × Nat :=
  let padded := md5Pad msg
  (chunks64 padded.length padded).foldl (fun st ch => md5Chunk st (toWordsLE ch))
    (1732584193, 4023233417, 2562383102, 271733878)

/-- Two lowercase hex digits of a byte. -/
def hexByte (n : Nat) : List Char :=
  [hexDigit (n / 16 % 16), hexDigit (n % 16)]

/-- The hex digest of one state word, bytes little-endian first. -/
def wordHexLE (w : Nat) : List Char :=
  hexByte (w % 256) ++ hexByte (w / 256 % 256) ++
  hexByte (w / 65536 % 256) ++ hexByte (w / 16777216 % 256)

/-- `hashlib.md5(bytes).hexdigest()`. -/
def md5Hex (msg : List Nat) : String :=
  String.mk (wordHexLE (md5Words msg).1 ++ wordHexLE (md5Words msg).2.1 ++
             wordHexLE (md5Words msg).2.2.1 ++ wordHexLE (md5Words msg).2.2.2)

/-- The cache key with the digest function abstracted:
`"story_list_" + digest(params_key)`. -/
def cacheKeyWith (digest : List Char → String) (ps : Params) : String :=
  "story_list_" ++ digest (params_key ps)

/-- `cache_key = f"story_list_{hashlib.md5(params_key.encode()).hexdigest()}"`
from `StoryListView.list`. -/
def cache_key (ps : Params) : String :=
  cacheKeyWith (fun s => md5Hex (utf8 s)) ps

/-! ### §1.4  A decoder for the serialization, to prove it injective

`decodeParams` is a left inverse of `params_key`'s serialization, so two
parameter lists serializing identically are identical. -/

/-- Decode one lowercase hex digit. -/
def decHexDigit (c : Char) : Option Nat :=
  let n := c.toNat
  if 48 ≤ n ∧ n ≤ 57 then some (n - 48)
  else if 97 ≤ n ∧ n ≤ 102 then some (n - 87)
  else none

/-- Decode four hex digits from the front of a list. -/
def decHex4 : List Char → Option (Nat × List Char)
  | a :: b :: c :: d :: r =>
    match decHexDigit a, decHexDigit b, decHexDigit c, decHexDigit d with
    | some x, some y, some z, some w => some (4096 * x + 256 * y + 16 * z + w, r)
    | _, _, _, _ => none
  | _ => none

/-- Decode the body of a `\uXXXX` escape, consuming the second escape of
a surrogate pair when the first four digits are a high surrogate. -/
def decUEsc (r : List Char) : Option (Char × List Char) :=
  match decHex4 r with
  | none => none
  | some (n, r1) =>
    if 55296 ≤ n ∧ n < 56320 then
      match r1 with
      | b1 :: b2 :: rest2 =>
        if b1 = '\\' ∧ b2 = 'u' then
          match decHex4 rest2 with
          | none => none
          | some (m, r2) =>
            if 56320 ≤ m ∧ m < 57344 then
              some (Char.ofNat (65536 + (n - 55296) * 1024 + (m - 56320)), r2)
            else none
        else none
      | _ => none
    else some (Char.ofNat n, r1)

/-- Decode the character after a backslash. -/
def decEsc : List Char → Option (Char × List Char)
  | [] => none
  | e :: r =>
    if e = '\\' then some ('\\', r)
    else if e = '"' then some ('"', r)
    else if e = 'b' then some (Char.ofNat 8, r)
    else if e = 't' then some (Char.ofNat 9, r)
    else if e = 'n' then some (Char.ofNat 10, r)
    else if e = 'f' then some (Char.ofNat 12, r)
    else if e = 'r' then some (Char.ofNat 13, r)
    else if e = 'u' then decUEsc r
    else none

/-- Decode one (possibly escaped) string-body character. -/
def decChar : List Char → Option (Char × List Char)
  | [] => none
  | c :: t =>
    if c = '\\' then decEsc t
    else if c = '"' then none
    else some (c, t)

/-- Decode a string body up to its closing quote (fuel-indexed). -/
def decStrBody : Nat → List Char → Option (List Char × List Char)
  | _, [] => none
  | 0, _ :: _ => none
  | fuel + 1, c :: t =>
    if c = '"' then some ([], t)
    else
      match decChar (c :: t) with
      | none => none
      | some (a, r) =>
        match decStrBody fuel r with
        | none => none
        | some (s, r2) => some (a :: s, r2)

/-- Decode a quoted JSON string literal. -/
def decStr (l : List Char) : Option (String × List Char) :=
  match l with
  | [] => none
  | c :: t =>
    if c = '"' then
      match decStrBody (t.length + 1) t with
      | none => none
      | some (s, r) => some (String.mk s, r)
    else none

/-- Decode the comma-separated items of a nonempty JSON array and the
closing bracket (fuel-indexed, generic in the item decoder). -/
def decItemsWith (dec : List Char → Option (α × List Char)) :
    Nat → List Char → Option (List α × List Char)
  | 0, _ => none
  | fuel + 1, l =>
    match dec l with
    | none => none
    | some (v, r) =>
      match r with
      | [] => none
      | c1 :: r1 =>
        if c1 = ']' then some ([v], r1)
        else
          match r1 with
          | [] => none
          | c2 :: r2 =>
            if c1 = ',' ∧ c2 = ' ' then
              match decItemsWith dec fuel r2 with
              | none => none
              | some (vs, r3) => some (v :: vs, r3)
            else none

/-- Decode a JSON array with `", "` separators, generic in the item
decoder. -/
def decListWith (dec : List Char → Option (α × List Char)) (l : List Char) :
    Option (List α × List Char) :=
  match l with
  | [] => none
  | b :: t =>
    if b = '[' then
      match t with
      | [] => none
      | c :: t2 =>
        if c = ']' then some ([], t2) else decItemsWith dec t.length t
    else none

/-- Decode one serialized `(key, value_list)` item. -/
def decPair (l : List Char) : Option ((String × List String) × List Char) :=
  match l with
  | [] => none
  | b :: t =>
    if b = '[' then
      match decStr t with
      | none => none
      | some (k, r) =>
        match r with
        | c1 :: c2 :: r2 =>
          if c1 = ',' ∧ c2 = ' ' then
            match decListWith decStr r2 with
            | none => none
            | some (vs, r3) =>
              match r3 with
              | [] => none
              | c3 :: r4 => if c3 = ']' then some ((k, vs), r4) else none
          else none
        | _ => none
    else none

/-- Decode a full serialized parameter-item list. -/
def decodeParams (l : List Char) : Option (Params × List Char) :=
  decListWith decPair l

/-! ### §2  The response cache and `StoryListView.list`

`StoryListView.list` reads the computed key from the shared cache,
returns a hit verbatim, and on a miss computes the response, writes it
with a fixed TTL of 30 seconds, and returns it.  The cache store is a
key-value store with expiry times; `set` on an existing key overwrites. -/

/-- One entry of the shared key-value cache store. -/
structure CacheEntry (α : Type) where
  key : String
  val : α
  expiry : Nat
  deriving DecidableEq

/-- `cache.get(key)` at time `now`: the live entry under `key`, if any. -/
def cacheGet (entries : List (CacheEntry α)) (now : Nat) (k : String) : Option α :=
  ((entries.filter (fun e => now < e.expiry)).find? (fun e => e.key = k)).map
    (fun e => e.val)

/-- `cache.set(key, value, ttl)` at time `now`: overwrite `key` with a
value expiring at `now + ttl`. -/
def cacheSet (entries : List (CacheEntry α)) (now : Nat) (k : String) (v : α)
    (ttl : Nat) : List (CacheEntry α) :=
  ⟨k, v, now + ttl⟩ :: entries.filter (fun e => e.key ≠ k)

/-- `StoryListView.list` with an infallible cache store and an
infallible response computation (`super().list`, i.e. Repository +
Pagination + serialization, abstracted as `compute`): return a live
cached payload verbatim, else compute, cache for 30 seconds, return. -/
def storyList (compute : Params → α) (entries : List (CacheEntry α)) (now : Nat)
    (ps : Params) : α × List (CacheEntry α) :=
  match cacheGet entries now (cache_key ps) with
  | some cached => (cached, entries)
  | none =>
    let response := compute ps
    (response, cacheSet entries now (cache_key ps) response 30)

/-- `StoryListView.list` with a fallible response computation (an
invalid filter value or cursor raises): the Python has no handler
around `super().list`, so the error propagates and `cache.set` is never
reached; the cache state is returned unchanged. -/
def storyListE (compute : Params → Except γ α) (entries : List (CacheEntry α))
    (now : Nat) (ps : Params) : Except γ α × List (CacheEntry α) :=
  match cacheGet entries now (cache_key ps) with
  | some cached => (.ok cached, entries)
  | none =>
    match compute ps with
    | .error e => (.error e, entries)
    | .ok response => (.ok response, cacheSet entries now (cache_key ps) response 30)

/-- `StoryListView.list` with a fallible cache store: the Python wraps
neither `cache.get` nor `cache.set` in a handler, so a raising store
propagates (left error) exactly as a raising computation does (right
error). -/
def storyListF (cGet : String → Except β (Option α))
    (cSet : String → α → Nat → Except β Unit) (compute : Params → Except γ α)
    (ps : Params) : Except (β ⊕ γ) α :=
  match cGet (cache_key ps) with
  | .error e => .error (.inl e)
  | .ok (some cached) => .ok cached
  | .ok none =>
    match compute ps with
    | .error e => .error (.inr e)
    | .ok response =>
      match cSet (cache_key ps) response 30 with
      | .error e => .error (.inl e)
      | .ok _ => .ok response

/-! ### §3  Data model and the three views' query sets -/

/-- The fields of `instagram.models.User` the views read. -/
structure UserR where
  pk : Nat
  username : String
  full_name : String
  biography : String
  deriving DecidableEq

/-- A user as the views return it: annotated with the two
request-time-computed existence flags. -/
structure AnnotatedUser where
  user : UserR
  has_stories : Bool
  has_history : Bool
  deriving DecidableEq

/-- The fields of `instagram.models.Story` the views read.  `userId`
references the owning user's primary key; `embedding` is nullable. -/
structure StoryR where
  story_id : String
  userId : Nat
  created_at : Int
  embedding : Option (List Rat)
  deriving DecidableEq

/-- One record of the append-only user history table, keyed by the
user's primary key. -/
structure HistoryR where
  uuid : Nat
  deriving DecidableEq

/-- The datastore contents at request time. -/
structure Database where
  stories : List StoryR
  users : List UserR
  history : List HistoryR
  deriving DecidableEq

/-- The `annotate(has_stories=Exists(...), has_history=Exists(...))`
applied to users in all three views' `get_queryset`. -/
def annotateUser (db : Database) (u : UserR) : AnnotatedUser :=
  ⟨u, db.stories.any (fun s => s.userId = u.pk),
      db.history.any (fun h => h.uuid = u.pk)⟩

/-- Resolve a story's owning user (the `Prefetch("user", ...)`),
annotated. -/
def resolveUser (db : Database) (s : StoryR) : Option AnnotatedUser :=
  (db.users.find? (fun u => u.pk = s.userId)).map (annotateUser db)

/-- One result row: a story with its owning user resolved and
annotated. -/
structure StoryRow where
  story : StoryR
  user : AnnotatedUser
  deriving DecidableEq

/-- All stories joined with their annotated owners. -/
def joinRows (db : Database) : List StoryRow :=
  db.stories.filterMap (fun s => (resolveUser db s).map (StoryRow.mk s))

/-- The `order_by("-created_at")` order: newest first. -/
def createdDescLe (a b : StoryRow) : Prop :=
  b.story.created_at ≤ a.story.created_at

instance : DecidableRel createdDescLe := fun a b => by
  unfold createdDescLe; infer_instance

/-- Lowercased characters of a string, for case-insensitive matching. -/
def lowerStr (s : String) : List Char :=
  s.data.map Char.toLower

/-- Whether `hay` starts with `needle`. -/
def listStartsWith : List Char → List Char → Bool
  | _, [] => true
  | [], _ :: _ => false
  | h :: hs, n :: ns => h = n && listStartsWith hs ns

/-- Whether `needle` occurs as a contiguous substring of `hay`. -/
def containsSub (hay needle : List Char) : Bool :=
  if listStartsWith hay needle then true
  else
    match hay with
    | [] => false
    | _ :: hs => containsSub hs needle

/-- Case-insensitive substring match, the ORM's `icontains`. -/
def icontains (field q : String) : Bool :=
  containsSub (lowerStr field) (lowerStr q)

/-- Modelled from the spec: the framework `SearchFilter` applied to
`search_fields = ["user__username", "user__full_name",
"user__biography"]` (its implementation is outside the provided
sources) — the search string "matches case-insensitively as a substring
against `username`, `full_name`, OR `biography` of the owning user
(logical OR across the three fields)". -/
def matchesSearch (q : String) (u : UserR) : Bool :=
  icontains u.username q || icontains u.full_name q || icontains u.biography q

/-- The search filter backend over the row list. -/
def applySearch (q : Option String) (rows : List StoryRow) : List StoryRow :=
  match q with
  | none => rows
  | some qs => rows.filter (fun r => matchesSearch qs r.user.user)

/-- Modelled from the spec: the framework filter backend for
`filterset_fields = ["user"]` — restrict to stories owned by the given
user key. -/
def applyUserFilter (uf : Option Nat) (rows : List StoryRow) : List StoryRow :=
  match uf with
  | none => rows
  | some u => rows.filter (fun r => r.story.userId = u)

/-- `StoryListView`'s result sequence: all stories with annotated
owners, ordered by `created_at` descending, then the search and user
filter backends. -/
def storyListQueryset (db : Database) (search : Option String)
    (userFilter : Option Nat) : List StoryRow :=
  applyUserFilter userFilter
    (applySearch search ((joinRows db).insertionSort createdDescLe))

/-- `StoryDetailView`: look up by `story_id` (`lookup_field`); `none` is
the 404. -/
def storyDetail (db : Database) (sid : String) : Option StoryRow :=
  (db.stories.find? (fun s => s.story_id = sid)).bind
    (fun s => (resolveUser db s).map (StoryRow.mk s))

/-- Squared L2 distance of two coordinate lists. -/
def l2sq (a b : List Rat) : Rat :=
  ((a.zip b).map (fun p => (p.1 - p.2) ^ 2)).sum

/-- The `order_by("-similarity_score")` order with
`similarity_score = 1 - L2Distance("embedding", source_embedding)`:
descending score, i.e. ascending distance; comparing squared distances
is comparing distances, `Real.sqrt` being monotone. -/
def simScoreGe (src : List Rat) (a b : StoryRow) : Prop :=
  l2sq src (a.story.embedding.getD []) ≤ l2sq src (b.story.embedding.getD [])

instance (src : List Rat) : DecidableRel (simScoreGe src) := fun a b => by
  unfold simScoreGe; infer_instance

/-- `StorySimilarView.get_queryset`: resolve the source story by
`story_id` (missing source or null embedding yields the empty query
set); otherwise every story with a non-null embedding except the source,
annotated, ranked by descending `similarity_score`. -/
def storySimilarQueryset (db : Database) (sid : String) : List StoryRow :=
  match db.stories.find? (fun s => s.story_id = sid) with
  | none => []
  | some src =>
    match src.embedding with
    | none => []
    | some e =>
      ((db.stories.filter
          (fun s => s.embedding.isSome && s.story_id ≠ sid)).filterMap
        (fun s => (resolveUser db s).map (StoryRow.mk s))).insertionSort
        (simScoreGe e)

/-! ### §4  Pagination, modelled from the spec

`instagram/paginations.py` (`StoryCursorPagination`,
`StorySimilarPageNumberPagination`) is outside the provided sources. -/

/-- Modelled from the spec: missing `instagram/paginations.py` page-size
negotiation, identical for both pagination classes — "Default page
size: 20"; "the effective page size is `min(requested, 100)` — 100 is a
hard ceiling regardless of request"; "`page_size` below 1 or
non-numeric → fall back to default page size rather than failing". -/
def effectivePageSize (requested : Option Nat) : Nat :=
  match requested with
  | none => 20
  | some r => if r < 1 then 20 else min r 100

/-- Modelled from the spec: the first page served by
`StoryCursorPagination` (cursor pagination, `created_at` descending
order carried by the query set). -/
def cursorFirstPage (rows : List α) (requested : Option Nat) : List α :=
  rows.take (effectivePageSize requested)

/-- An offset-pagination response body. -/
structure PageResponse (α : Type) where
  count : Nat
  results : List α
  deriving DecidableEq

/-- Modelled from the spec: `StorySimilarPageNumberPagination`
(1-based numbered offset paging; a page past the last of a nonempty set
is an error, `none`; page 1 of an empty set is a valid empty page). -/
def numberedPage (rows : List α) (page : Nat) (requested : Option Nat) :
    Option (PageResponse α) :=
  if page = 1 ∨ (page - 1) * effectivePageSize requested < rows.length then
    some ⟨rows.length,
      (rows.drop ((page - 1) * effectivePageSize requested)).take
        (effectivePageSize requested)⟩
  else none

/-- `StorySimilarView` end to end: its query set, offset-paginated. -/
def similarEndpoint (db : Database) (sid : String) (page : Nat)
    (requested : Option Nat) : Option (PageResponse StoryRow) :=
  numberedPage (storySimilarQueryset db sid) page requested

/-! ### §4.1  A small concrete dataset, used by closed witnesses -/

/-- Witness fixture: a user with stories and a history record. -/
def wUser1 : UserR := ⟨1, "JohnDoe", "John Doe", "photography"⟩

/-- Witness fixture: a user with no stories and no history record. -/
def wUser2 : UserR := ⟨2, "alice", "Alice A", "food blogger"⟩

/-- Witness fixture: the similarity source story. -/
def wStory1 : StoryR := ⟨"s1", 1, 10, some [0, 0]⟩

/-- Witness fixture: a candidate story with an embedding. -/
def wStory2 : StoryR := ⟨"s2", 1, 20, some [3, 4]⟩

/-- Witness fixture: a story without an embedding. -/
def wStory3 : StoryR := ⟨"s3", 1, 30, none⟩

/-- Witness fixture: the datastore contents. -/
def wDb : Database := ⟨[wStory1, wStory2, wStory3], [wUser1, wUser2], [⟨1⟩]⟩

/-! ## Proofs

### §5.1  The item order is linear, so sorting canonicalizes -/

theorem natCmp_lt_iff (a b : Nat) : natCmp a b = .lt ↔ a < b := by
  unfold natCmp
  split_ifs with h1 h2 <;> simp_all <;> omega

theorem natCmp_gt_iff (a b : Nat) : natCmp a b = .gt ↔ b < a := by
  unfold natCmp
  split_ifs with h1 h2 <;> simp_all <;> omega

theorem natCmp_eq_iff (a b : Nat) : natCmp a b = .eq ↔ a = b := by
  unfold natCmp
  split_ifs with h1 h2 <;> simp_all <;> omega

theorem natCmp_lawful : LawfulCmp natCmp := by
  refine ⟨natCmp_eq_iff, fun a b => ?_, fun a b d h1 h2 => ?_⟩
  · rcases Nat.lt_trichotomy a b with h | h | h
    · rw [(natCmp_lt_iff a b).mpr h, (natCmp_gt_iff b a).mpr h]; rfl
    · subst h
      rw [(natCmp_eq_iff a a).mpr rfl]; rfl
    · rw [(natCmp_gt_iff a b).mpr h, (natCmp_lt_iff b a).mpr h]; rfl
  · rw [natCmp_lt_iff] at h1 h2 ⊢
    omega

theorem charCmp_lawful : LawfulCmp charCmp := by
  obtain ⟨he, hs, ht⟩ := natCmp_lawful
  refine ⟨fun a b => ?_, fun a b => hs _ _, fun a b d => ht _ _ _⟩
  unfold charCmp
  rw [he]
  constructor
  · intro h
    have h2 := congrArg Char.ofNat h
    rwa [Char.ofNat_toNat, Char.ofNat_toNat] at h2
  · intro h; rw [h]

theorem lexCmp_lawful (c : α → α → Ordering) (hc : LawfulCmp c) :
    LawfulCmp (lexCmp c) := by
  obtain ⟨he, hs, ht⟩ := hc
  refine ⟨fun a b => ?_, fun a b => ?_, fun a b d h1 h2 => ?_⟩
  · induction a generalizing b with
    | nil => cases b <;> simp [lexCmp]
    | cons x xs ih =>
      cases b with
      | nil => simp [lexCmp]
      | cons y ys =>
        cases hxy : c x y with
        | lt =>
          have hne : ¬ x = y := by
            intro h
            rw [(he x y).mpr h] at hxy
            cases hxy
          simp [lexCmp, hxy, Ordering.then, hne]
        | eq =>
          have hx : x = y := (he x y).mp hxy
          subst hx
          simp [lexCmp, hxy, Ordering.then, ih]
        | gt =>
          have hne : ¬ x = y := by
            intro h
            rw [(he x y).mpr h] at hxy
            cases hxy
          simp [lexCmp, hxy, Ordering.then, hne]
  · induction a generalizing b with
    | nil => cases b <;> simp [lexCmp, Ordering.swap]
    | cons x xs ih =>
      cases b with
      | nil => simp [lexCmp, Ordering.swap]
      | cons y ys =>
        have hsw := hs x y
        cases hxy : c x y with
        | lt =>
          rw [hxy] at hsw
          simp only [Ordering.swap] at hsw
          simp [lexCmp, hxy, ← hsw, Ordering.then, Ordering.swap]
        | eq =>
          rw [hxy] at hsw
          simp only [Ordering.swap] at hsw
          simp only [lexCmp, hxy, ← hsw, Ordering.then]
          exact ih ys
        | gt =>
          rw [hxy] at hsw
          simp only [Ordering.swap] at hsw
          simp [lexCmp, hxy, ← hsw, Ordering.then, Ordering.swap]
  · induction a generalizing b d with
    | nil =>
      cases b with
      | nil => simp [lexCmp] at h1
      | cons y ys =>
        cases d with
        | nil => simp [lexCmp] at h2
        | cons z zs => simp [lexCmp]
    | cons x xs ih =>
      cases b with
      | nil => simp [lexCmp] at h1
      | cons y ys =>
        cases d with
        | nil => simp [lexCmp] at h2
        | cons z zs =>
          simp only [lexCmp] at h1 h2 ⊢
          cases hxy : c x y with
          | lt =>
            cases hyz : c y z with
            | lt => rw [ht x y z hxy hyz]; rfl
            | eq => rw [← (he y z).mp hyz, hxy]; rfl
            | gt =>
              rw [hyz] at h2
              simp only [Ordering.then] at h2
              simp at h2
          | eq =>
            rw [hxy] at h1
            simp only [Ordering.then] at h1
            have hx := (he x y).mp hxy
            subst hx
            cases hyz : c x z with
            | lt => rfl
            | eq =>
              rw [hyz] at h2
              simp only [Ordering.then] at h2 ⊢
              exact ih ys zs h1 h2
            | gt =>
              rw [hyz] at h2
              simp only [Ordering.then] at h2
              simp at h2
          | gt =>
            rw [hxy] at h1
            simp only [Ordering.then] at h1
            simp at h1

theorem strCmp_lawful : LawfulCmp strCmp := by
  obtain ⟨he, hs, ht⟩ := lexCmp_lawful charCmp charCmp_lawful
  refine ⟨fun a b => ?_, fun a b => hs _ _, fun a b d => ht _ _ _⟩
  unfold strCmp
  rw [he]
  exact ⟨fun h => String.ext h, fun h => by rw [h]⟩

theorem pairCmp_lawful : LawfulCmp pairCmp := by
  obtain ⟨she, shs, sht⟩ := strCmp_lawful
  obtain ⟨lhe, lhsw, lht⟩ := lexCmp_lawful strCmp strCmp_lawful
  refine ⟨fun a b => ?_, fun a b => ?_, fun a b d h1 h2 => ?_⟩
  · unfold pairCmp
    cases hxy : strCmp a.1 b.1 with
    | lt =>
      have hne : ¬ a = b := by
        intro h
        rw [h, (she b.1 b.1).mpr rfl] at hxy
        cases hxy
      simp [Ordering.then, hne]
    | eq =>
      have hfst : a.1 = b.1 := (she _ _).mp hxy
      simp only [Ordering.then]
      rw [lhe]
      constructor
      · intro hsnd
        exact Prod.ext hfst hsnd
      · intro h; rw [h]
    | gt =>
      have hne : ¬ a = b := by
        intro h
        rw [h, (she b.1 b.1).mpr rfl] at hxy
        cases hxy
      simp [Ordering.then, hne]
  · unfold pairCmp
    have hsw := shs a.1 b.1
    cases hxy : strCmp a.1 b.1 with
    | lt =>
      rw [hxy] at hsw
      simp only [Ordering.swap] at hsw
      simp [← hsw, Ordering.then, Ordering.swap]
    | eq =>
      rw [hxy] at hsw
      simp only [Ordering.swap] at hsw
      simp only [← hsw, Ordering.then]
      exact lhsw a.2 b.2
    | gt =>
      rw [hxy] at hsw
      simp only [Ordering.swap] at hsw
      simp [← hsw, Ordering.then, Ordering.swap]
  · unfold pairCmp at h1 h2 ⊢
    cases hxy : strCmp a.1 b.1 with
    | lt =>
      cases hyz : strCmp b.1 d.1 with
      | lt => rw [sht _ _ _ hxy hyz]; rfl
      | eq => rw [← (she b.1 d.1).mp hyz, hxy]; rfl
      | gt =>
        rw [hyz] at h2
        simp only [Ordering.then] at h2
        simp at h2
    | eq =>
      rw [hxy] at h1
      simp only [Ordering.then] at h1
      have hfst := (she a.1 b.1).mp hxy
      rw [hfst]
      cases hyz : strCmp b.1 d.1 with
      | lt => rfl
      | eq =>
        rw [hyz] at h2
        simp only [Ordering.then] at h2 ⊢
        exact lht _ _ _ h1 h2
      | gt =>
        rw [hyz] at h2
        simp only [Ordering.then] at h2
        simp at h2
    | gt =>
      rw [hxy] at h1
      simp only [Ordering.then] at h1
      simp at h1

instance : IsTotal (String × List String) paramLe := by
  constructor
  intro a b
  obtain ⟨he, hs, ht⟩ := pairCmp_lawful
  unfold paramLe pairLe
  simp only [ne_eq, decide_eq_true_eq]
  by_cases h : pairCmp a b = .gt
  · right
    intro hgt
    have hsw := hs a b
    rw [h] at hsw
    simp only [Ordering.swap] at hsw
    rw [← hsw] at hgt
    simp at hgt
  · left; exact h

instance : IsTrans (String × List String) paramLe := by
  constructor
  intro a b d h1 h2
  obtain ⟨he, hs, ht⟩ := pairCmp_lawful
  unfold paramLe pairLe at h1 h2 ⊢
  simp only [ne_eq, decide_eq_true_eq] at h1 h2 ⊢
  intro had
  cases hxy : pairCmp a b with
  | lt =>
    cases hyz : pairCmp b d with
    | lt =>
      rw [ht a b d hxy hyz] at had
      simp at had
    | eq =>
      rw [← (he b d).mp hyz] at had
      rw [hxy] at had
      simp at had
    | gt => exact h2 hyz
  | eq =>
    rw [(he a b).mp hxy] at had
    exact h2 had
  | gt => exact h1 hxy

instance : IsAntisymm (String × List String) paramLe := by
  constructor
  intro a b h1 h2
  obtain ⟨he, hs, ht⟩ := pairCmp_lawful
  unfold paramLe pairLe at h1 h2
  simp only [ne_eq, decide_eq_true_eq] at h1 h2
  cases hxy : pairCmp a b with
  | lt =>
    exfalso
    apply h2
    have hsw := hs a b
    rw [hxy] at hsw
    simp only [Ordering.swap] at hsw
    exact hsw.symm
  | eq => exact (he a b).mp hxy
  | gt => exact absurd hxy h1

theorem sortedParams_perm (ps : Params) : (sortedParams ps).Perm ps :=
  List.perm_insertionSort paramLe ps

theorem sortedParams_sorted (ps : Params) :
    List.Sorted paramLe (sortedParams ps) :=
  List.sorted_insertionSort paramLe ps

/-- Two parameter lists with the same items in any order sort to the
same canonical list. -/
theorem sortedParams_eq_of_perm (p1 p2 : Params) (h : p1.Perm p2) :
    sortedParams p1 = sortedParams p2 :=
  List.eq_of_perm_of_sorted
    (((sortedParams_perm p1).trans h).trans (sortedParams_perm p2).symm)
    (sortedParams_sorted p1) (sortedParams_sorted p2)

/-! ### §5.2  Map equality versus permutation of items -/

theorem lookupParam_eq_none_iff (ps : Params) (k : String) :
    lookupParam ps k = none ↔ k ∉ ps.map Prod.fst := by
  unfold lookupParam
  constructor
  · intro h hk
    obtain ⟨p, hp, hpk⟩ := List.mem_map.mp hk
    cases hf : ps.find? (fun q => q.1 = k) with
    | some q => rw [hf] at h; cases h
    | none =>
      rw [List.find?_eq_none] at hf
      exact hf p hp (decide_eq_true hpk)
  · intro h
    cases hf : ps.find? (fun q => q.1 = k) with
    | some q =>
      have hq := List.find?_some hf
      simp only [decide_eq_true_eq] at hq
      exact absurd (List.mem_map.mpr ⟨q, List.mem_of_find?_eq_some hf, hq⟩) h
    | none => rfl

theorem lookupParam_eq_some_iff (ps : Params) (k : String) (vs : List String)
    (h : KeysNodup ps) : lookupParam ps k = some vs ↔ (k, vs) ∈ ps := by
  induction ps with
  | nil => simp [lookupParam]
  | cons p rest ih =>
    unfold KeysNodup at h
    simp only [List.map_cons, List.nodup_cons] at h
    unfold lookupParam
    by_cases hpk : p.1 = k
    · rw [List.find?_cons_of_pos rest (decide_eq_true hpk)]
      simp only [Option.map, Option.some.injEq, List.mem_cons]
      constructor
      · intro hv
        exact Or.inl (Prod.ext_iff.mpr ⟨hpk.symm, hv.symm⟩)
      · intro hv
        rcases hv with hv | hv
        · rw [← hv]
        · exfalso
          rw [hpk] at h
          exact h.1 (List.mem_map.mpr ⟨(k, vs), hv, rfl⟩)
    · rw [List.find?_cons_of_neg rest (by simpa using hpk)]
      change lookupParam rest k = some vs ↔ _
      rw [ih h.2, List.mem_cons]
      constructor
      · intro hv; exact Or.inr hv
      · intro hv
        rcases hv with hv | hv
        · exact absurd (by rw [← hv]) hpk
        · exact hv

/-! ### §5.3  The serialization is injective: decoder round trips -/

theorem decHexDigit_hexDigit (n : Nat) (h : n < 16) :
    decHexDigit (hexDigit n) = some n := by
  interval_cases n <;> decide

theorem decHex4_hex4 (n : Nat) (h : n < 65536) (r : List Char) :
    decHex4 (hex4 n ++ r) = some (n, r) := by
  have e : 4096 * (n / 4096 % 16) + 256 * (n / 256 % 16) + 16 * (n / 16 % 16) +
      n % 16 = n := by omega
  simp only [hex4, List.cons_append, List.nil_append, decHex4,
    decHexDigit_hexDigit _ (by omega : n / 4096 % 16 < 16),
    decHexDigit_hexDigit _ (by omega : n / 256 % 16 < 16),
    decHexDigit_hexDigit _ (by omega : n / 16 % 16 < 16),
    decHexDigit_hexDigit _ (by omega : n % 16 < 16), e]

theorem char_toNat_valid (c : Char) :
    c.toNat < 55296 ∨ (57343 < c.toNat ∧ c.toNat < 1114112) := by
  have h := c.valid
  have e : c.toNat = c.val.toNat := rfl
  rcases h with h | h
  · left; omega
  · right; omega

theorem escapeChar_head (c : Char) :
    ∃ hd tl, escapeChar c = hd :: tl ∧ hd ≠ '"' := by
  unfold escapeChar
  split_ifs with h1 h2 h3 h4 h5 h6 h7 h8 h9
  · exact ⟨'\\', _, rfl, by decide⟩
  · exact ⟨'\\', _, rfl, by decide⟩
  · exact ⟨'\\', _, rfl, by decide⟩
  · exact ⟨'\\', _, rfl, by decide⟩
  · exact ⟨'\\', _, rfl, by decide⟩
  · exact ⟨'\\', _, rfl, by decide⟩
  · exact ⟨'\\', _, rfl, by decide⟩
  · exact ⟨'\\', _, rfl, by decide⟩
  · simp only [List.cons_append]
    exact ⟨'\\', _, rfl, by decide⟩
  · exact ⟨c, [], rfl, h2⟩

theorem decUEsc_surrogate (hi lo : Nat) (hhi : 55296 ≤ hi ∧ hi < 56320)
    (hlo : 56320 ≤ lo ∧ lo < 57344) (r : List Char) :
    decUEsc (hex4 hi ++ ('\\' :: 'u' :: (hex4 lo ++ r))) =
      some (Char.ofNat (65536 + (hi - 55296) * 1024 + (lo - 56320)), r) := by
  unfold decUEsc
  rw [decHex4_hex4 hi (by omega) ('\\' :: 'u' :: (hex4 lo ++ r))]
  dsimp only []
  rw [if_pos hhi]
  rw [if_pos ⟨rfl, rfl⟩]
  rw [decHex4_hex4 lo (by omega) r]
  dsimp only []
  rw [if_pos hlo]

theorem decChar_bs_u (X : List Char) : decChar ('\\' :: 'u' :: X) = decUEsc X := rfl

theorem decChar_escapeChar (c : Char) (r : List Char) :
    decChar (escapeChar c ++ r) = some (c, r) := by
  unfold escapeChar
  split_ifs with h1 h2 h3 h4 h5 h6 h7 h8 h9
  · subst h1; rfl
  · subst h2; rfl
  · have hc : c = Char.ofNat 8 := by rw [← h3, Char.ofNat_toNat]
    rw [hc]; rfl
  · have hc : c = Char.ofNat 9 := by rw [← h4, Char.ofNat_toNat]
    rw [hc]; rfl
  · have hc : c = Char.ofNat 10 := by rw [← h5, Char.ofNat_toNat]
    rw [hc]; rfl
  · have hc : c = Char.ofNat 12 := by rw [← h6, Char.ofNat_toNat]
    rw [hc]; rfl
  · have hc : c = Char.ofNat 13 := by rw [← h7, Char.ofNat_toNat]
    rw [hc]; rfl
  · -- single `\uXXXX` escape, c in the basic plane
    show decChar ('\\' :: 'u' :: (hex4 c.toNat ++ r)) = some (c, r)
    have hns : ¬ (55296 ≤ c.toNat ∧ c.toNat < 56320) := by
      rcases char_toNat_valid c with h | h <;> omega
    rw [decChar_bs_u]
    simp only [decUEsc, decHex4_hex4 c.toNat h9 r]
    rw [if_neg hns, Char.ofNat_toNat]
  · -- surrogate-pair escape, c beyond the basic plane
    have hlt : c.toNat < 1114112 := by
      rcases char_toNat_valid c with h | h <;> omega
    have hge : 65536 ≤ c.toNat := by omega
    show decChar ('\\' :: 'u' ::
        (hex4 (55296 + (c.toNat - 65536) / 1024) ++
          ('\\' :: 'u' :: (hex4 (56320 + (c.toNat - 65536) % 1024) ++ r)))) =
      some (c, r)
    rw [decChar_bs_u]
    rw [decUEsc_surrogate (55296 + (c.toNat - 65536) / 1024)
      (56320 + (c.toNat - 65536) % 1024) (by omega) (by omega) r]
    have he2 : 65536 + (55296 + (c.toNat - 65536) / 1024 - 55296) * 1024 +
        (56320 + (c.toNat - 65536) % 1024 - 56320) = c.toNat := by omega
    rw [he2, Char.ofNat_toNat]
  · -- printable ASCII, emitted literally
    show (if c = '\\' then decEsc r
      else if c = '"' then none else some (c, r)) = some (c, r)
    rw [if_neg h1, if_neg h2]

theorem length_le_length_flatMap_escapeChar (s : List Char) :
    s.length ≤ (s.flatMap escapeChar).length := by
  induction s with
  | nil => simp
  | cons c cs ih =>
    obtain ⟨hd, tl, he, _⟩ := escapeChar_head c
    simp only [List.flatMap_cons, List.length_cons, List.length_append, he]
    omega

theorem decStrBody_enc (s : List Char) (r : List Char) (fuel : Nat)
    (h : s.length < fuel) :
    decStrBody fuel (s.flatMap escapeChar ++ '"' :: r) = some (s, r) := by
  induction s generalizing fuel r with
  | nil =>
    cases fuel with
    | zero => omega
    | succ f =>
      simp only [List.flatMap_nil, List.nil_append]
      rfl
  | cons c cs ih =>
    cases fuel with
    | zero => omega
    | succ f =>
      obtain ⟨hd, tl, he, hne⟩ := escapeChar_head c
      have harg : List.flatMap (c :: cs) escapeChar ++ '"' :: r =
          hd :: (tl ++ (List.flatMap cs escapeChar ++ '"' :: r)) := by
        rw [List.flatMap_cons, he, List.append_assoc]
        rfl
      rw [harg]
      have hdec : decChar (hd :: (tl ++ (List.flatMap cs escapeChar ++ '"' :: r))) =
          some (c, List.flatMap cs escapeChar ++ '"' :: r) := by
        have hb := decChar_escapeChar c (List.flatMap cs escapeChar ++ '"' :: r)
        rwa [he, List.cons_append] at hb
      unfold decStrBody
      rw [if_neg hne, hdec]
      dsimp only []
      rw [ih r f (by simpa using Nat.lt_of_succ_lt_succ h)]

theorem decStr_encStr (s : String) (r : List Char) :
    decStr (encStr s ++ r) = some (s, r) := by
  have harg : encStr s ++ r =
      '"' :: (s.data.flatMap escapeChar ++ '"' :: r) := by
    unfold encStr
    simp [List.append_assoc]
  rw [harg]
  unfold decStr
  dsimp only []
  rw [if_pos rfl]
  rw [decStrBody_enc s.data r _ (by
    have hl := length_le_length_flatMap_escapeChar s.data
    simp only [List.length_append, List.length_cons]
    omega)]

theorem length_le_length_encItems (enc : α → List Char)
    (hne : ∀ x, 1 ≤ (enc x).length) (vs : List α) :
    vs.length ≤ (encItems enc vs).length := by
  induction vs with
  | nil => simp [encItems]
  | cons v vs ih =>
    cases vs with
    | nil => simpa [encItems] using hne v
    | cons w ws =>
      have h1 := hne v
      simp only [encItems, List.length_append, List.length_cons] at ih ⊢
      omega

theorem decItemsWith_enc (enc : α → List Char)
    (dec : List Char → Option (α × List Char))
    (hdec : ∀ x r, dec (enc x ++ r) = some (x, r)) (vs : List α)
    (hvs : vs ≠ []) (r : List Char) (fuel : Nat) (h : vs.length ≤ fuel) :
    decItemsWith dec fuel (encItems enc vs ++ ']' :: r) = some (vs, r) := by
  induction vs generalizing fuel r with
  | nil => exact absurd rfl hvs
  | cons v vs ih =>
    cases fuel with
    | zero => simp at h
    | succ f =>
      cases vs with
      | nil =>
        unfold decItemsWith
        simp only [encItems]
        rw [hdec v (']' :: r)]
        dsimp only []
        rw [if_pos rfl]
      | cons w ws =>
        unfold decItemsWith
        simp only [encItems, List.cons_append, List.append_assoc]
        rw [hdec v (',' :: ' ' :: (encItems enc (w :: ws) ++ ']' :: r))]
        dsimp only []
        rw [if_neg (by decide : ¬ (',' : Char) = ']'), if_pos ⟨rfl, rfl⟩]
        rw [ih (by simp) r f (by simpa using Nat.le_of_succ_le_succ h)]

theorem decListWith_enc (enc : α → List Char)
    (dec : List Char → Option (α × List Char))
    (hdec : ∀ x r, dec (enc x ++ r) = some (x, r))
    (hhead : ∀ x, ∃ hd tl, enc x = hd :: tl ∧ hd ≠ ']') (vs : List α)
    (r : List Char) : decListWith dec (encList enc vs ++ r) = some (vs, r) := by
  have harg : encList enc vs ++ r = '[' :: (encItems enc vs ++ ']' :: r) := by
    unfold encList
    simp [List.append_assoc]
  rw [harg]
  unfold decListWith
  dsimp only []
  rw [if_pos rfl]
  cases vs with
  | nil => simp [encItems]
  | cons v vs =>
    obtain ⟨hd, tl, he, hne⟩ := hhead v
    have hsplit : ∃ X, encItems enc (v :: vs) ++ ']' :: r = enc v ++ X := by
      cases vs with
      | nil => exact ⟨']' :: r, by simp [encItems]⟩
      | cons w ws =>
        exact ⟨',' :: ' ' :: (encItems enc (w :: ws) ++ ']' :: r),
          by simp [encItems]⟩
    obtain ⟨X, hX⟩ := hsplit
    rw [hX, he, List.cons_append]
    dsimp only []
    rw [if_neg hne]
    rw [← List.cons_append, ← he, ← hX]
    have hlen2 : (v :: vs).length ≤ (encItems enc (v :: vs) ++ ']' :: r).length := by
      have hi := length_le_length_encItems enc
        (fun x => by
          obtain ⟨h1, t1, he1, _⟩ := hhead x
          simp [he1]) (v :: vs)
      simp only [List.length_append, List.length_cons] at hi ⊢
      omega
    exact decItemsWith_enc enc dec hdec (v :: vs) (by simp) r _ hlen2

theorem decPair_encPair (p : String × List String) (r : List Char) :
    decPair (encPair p ++ r) = some (p, r) := by
  have harg : encPair p ++ r =
      '[' :: (encStr p.1 ++
        (',' :: ' ' :: (encList encStr p.2 ++ ']' :: r))) := by
    unfold encPair
    simp [List.append_assoc]
  rw [harg]
  unfold decPair
  dsimp only []
  rw [if_pos rfl]
  rw [decStr_encStr p.1 (',' :: ' ' :: (encList encStr p.2 ++ ']' :: r))]
  dsimp only []
  rw [if_pos ⟨rfl, rfl⟩]
  rw [decListWith_enc encStr decStr decStr_encStr
    (fun x => ⟨'"', _, rfl, by decide⟩) p.2 (']' :: r)]
  dsimp only []
  rw [if_pos rfl]

theorem decodeParams_enc (ps : Params) (r : List Char) :
    decodeParams (encList encPair ps ++ r) = some (ps, r) := by
  unfold decodeParams
  exact decListWith_enc encPair decPair decPair_encPair
    (fun x => ⟨'[', _, rfl, by decide⟩) ps r

/-- The serialized parameter key determines the sorted item list. -/
theorem params_key_inj_sorted (p1 p2 : Params)
    (h : params_key p1 = params_key p2) : sortedParams p1 = sortedParams p2 := by
  have h1 := decodeParams_enc (sortedParams p1) []
  have h2 := decodeParams_enc (sortedParams p2) []
  unfold params_key at h
  rw [h] at h1
  rw [h2] at h1
  exact (congrArg Prod.fst (Option.some.inj h1)).symm

/-- For parameter mappings with distinct keys, equality as mappings is
exactly permutation of the item lists. -/
theorem paramsEqual_iff_perm (p1 p2 : Params) (h1 : KeysNodup p1)
    (h2 : KeysNodup p2) : paramsEqual p1 p2 ↔ p1.Perm p2 := by
  constructor
  · intro h
    rw [List.perm_ext_iff_of_nodup (h1.of_map) (h2.of_map)]
    intro ⟨k, vs⟩
    rw [← lookupParam_eq_some_iff p1 k vs h1, ← lookupParam_eq_some_iff p2 k vs h2,
      h k]
  · intro h k
    cases hv : lookupParam p1 k with
    | some vs =>
      rw [lookupParam_eq_some_iff p1 k vs h1] at hv
      rw [(lookupParam_eq_some_iff p2 k vs h2).mpr (h.mem_iff.mp hv)]
    | none =>
      rw [lookupParam_eq_none_iff] at hv
      rw [(lookupParam_eq_none_iff p2 k).mpr]
      intro hk
      exact hv ((h.map Prod.fst).mem_iff.mpr hk)

/-! ### §5.4  Consequences for the cache key -/

theorem params_key_congr (p1 p2 : Params) (h1 : KeysNodup p1)
    (h2 : KeysNodup p2) (he : paramsEqual p1 p2) :
    params_key p1 = params_key p2 := by
  unfold params_key
  rw [sortedParams_eq_of_perm p1 p2 ((paramsEqual_iff_perm p1 p2 h1 h2).mp he)]

theorem params_key_inj (p1 p2 : Params) (h1 : KeysNodup p1)
    (h2 : KeysNodup p2) (h : params_key p1 = params_key p2) :
    paramsEqual p1 p2 := by
  apply (paramsEqual_iff_perm p1 p2 h1 h2).mpr
  have hs := params_key_inj_sorted p1 p2 h
  have hp1 := (sortedParams_perm p1).symm
  rw [hs] at hp1
  exact hp1.trans (sortedParams_perm p2)

theorem cacheKeyWith_congr (digest : List Char → String) (p1 p2 : Params)
    (h1 : KeysNodup p1) (h2 : KeysNodup p2) (he : paramsEqual p1 p2) :
    cacheKeyWith digest p1 = cacheKeyWith digest p2 := by
  unfold cacheKeyWith
  rw [params_key_congr p1 p2 h1 h2 he]

theorem cache_key_congr (p1 p2 : Params) (h1 : KeysNodup p1)
    (h2 : KeysNodup p2) (he : paramsEqual p1 p2) :
    cache_key p1 = cache_key p2 :=
  cacheKeyWith_congr _ p1 p2 h1 h2 he

/-! ### §6  Cache-machine lemmas -/

theorem cacheGet_cacheSet_live (entries : List (CacheEntry α)) (now now2 : Nat)
    (k : String) (v : α) (ttl : Nat) (h : now2 < now + ttl) :
    cacheGet (cacheSet entries now k v ttl) now2 k = some v := by
  unfold cacheGet cacheSet
  rw [List.filter_cons_of_pos (by simpa using h)]
  rw [List.find?_cons_of_pos _ (by simp)]
  rfl

/-! ### §7  Queryset lemmas -/

theorem resolveUser_annotate (db : Database) (s : StoryR) (au : AnnotatedUser)
    (h : resolveUser db s = some au) : au = annotateUser db au.user := by
  unfold resolveUser at h
  cases hf : db.users.find? (fun u => u.pk = s.userId) with
  | none => rw [hf] at h; cases h
  | some u =>
    rw [hf] at h
    have h2 : annotateUser db u = au := Option.some.inj h
    rw [← h2]
    rfl

theorem annotateUser_has_stories (db : Database) (u : UserR) :
    (annotateUser db u).has_stories = true ↔
      ∃ s ∈ db.stories, s.userId = u.pk := by
  unfold annotateUser
  simp [List.any_eq_true]

theorem annotateUser_has_history (db : Database) (u : UserR) :
    (annotateUser db u).has_history = true ↔
      ∃ h ∈ db.history, h.uuid = u.pk := by
  unfold annotateUser
  simp [List.any_eq_true]

theorem mem_joinRows (db : Database) (row : StoryRow) :
    row ∈ joinRows db ↔
      row.story ∈ db.stories ∧ resolveUser db row.story = some row.user := by
  unfold joinRows
  rw [List.mem_filterMap]
  constructor
  · rintro ⟨s, hs, hmap⟩
    cases hr : resolveUser db s with
    | none => rw [hr] at hmap; cases hmap
    | some au =>
      rw [hr] at hmap
      have h2 : StoryRow.mk s au = row := Option.some.inj hmap
      rw [← h2]
      exact ⟨hs, hr⟩
  · rintro ⟨hs, hr⟩
    exact ⟨row.story, hs, by rw [hr]; rfl⟩

theorem mem_of_mem_storyListQueryset (db : Database) (search : Option String)
    (uf : Option Nat) (row : StoryRow)
    (h : row ∈ storyListQueryset db search uf) : row ∈ joinRows db := by
  unfold storyListQueryset at h
  have h2 : row ∈ applySearch search ((joinRows db).insertionSort createdDescLe) := by
    cases uf with
    | none => exact h
    | some u =>
      unfold applyUserFilter at h
      exact (List.mem_filter.mp h).1
  have h3 : row ∈ (joinRows db).insertionSort createdDescLe := by
    cases search with
    | none => exact h2
    | some q =>
      unfold applySearch at h2
      exact (List.mem_filter.mp h2).1
  exact (List.mem_insertionSort createdDescLe).mp h3

theorem storyDetail_resolve (db : Database) (sid : String) (row : StoryRow)
    (h : storyDetail db sid = some row) :
    resolveUser db row.story = some row.user := by
  unfold storyDetail at h
  cases hf : db.stories.find? (fun s => s.story_id = sid) with
  | none => rw [hf] at h; cases h
  | some s =>
    rw [hf] at h
    dsimp only [Option.bind] at h
    cases hr : resolveUser db s with
    | none => rw [hr] at h; cases h
    | some au =>
      rw [hr] at h
      have h2 : StoryRow.mk s au = row := Option.some.inj h
      rw [← h2]
      exact hr

theorem mem_storySimilarQueryset (db : Database) (sid : String)
    (src : StoryR) (e : List Rat)
    (hfind : db.stories.find? (fun s => s.story_id = sid) = some src)
    (hemb : src.embedding = some e) (row : StoryRow) :
    row ∈ storySimilarQueryset db sid ↔
      row.story ∈ db.stories ∧ row.story.embedding.isSome = true ∧
        row.story.story_id ≠ sid ∧
        resolveUser db row.story = some row.user := by
  unfold storySimilarQueryset
  rw [hfind]
  dsimp only []
  rw [hemb]
  dsimp only []
  rw [List.mem_insertionSort, List.mem_filterMap]
  constructor
  · rintro ⟨s, hs, hmap⟩
    rw [List.mem_filter] at hs
    cases hr : resolveUser db s with
    | none => rw [hr] at hmap; cases hmap
    | some au =>
      rw [hr] at hmap
      have h2 : StoryRow.mk s au = row := Option.some.inj hmap
      rw [← h2]
      have hp := hs.2
      simp only [Bool.and_eq_true, decide_eq_true_eq] at hp
      exact ⟨hs.1, hp.1, hp.2, hr⟩
  · rintro ⟨hs, hsome, hne, hr⟩
    refine ⟨row.story, List.mem_filter.mpr ⟨hs, ?_⟩, by rw [hr]; rfl⟩
    simp only [Bool.and_eq_true, decide_eq_true_eq]
    exact ⟨hsome, hne⟩

theorem mem_storySimilarQueryset_resolve (db : Database) (sid : String)
    (row : StoryRow) (h : row ∈ storySimilarQueryset db sid) :
    resolveUser db row.story = some row.user := by
  unfold storySimilarQueryset at h
  cases hf : db.stories.find? (fun s => s.story_id = sid) with
  | none => rw [hf] at h; cases h
  | some src =>
    rw [hf] at h
    dsimp only [] at h
    cases he : src.embedding with
    | none => rw [he] at h; cases h
    | some e =>
      rw [he] at h
      dsimp only [] at h
      rw [List.mem_insertionSort, List.mem_filterMap] at h
      obtain ⟨s, _, hmap⟩ := h
      cases hr : resolveUser db s with
      | none => rw [hr] at hmap; cases hmap
      | some au =>
        rw [hr] at hmap
        have h2 : StoryRow.mk s au = row := Option.some.inj hmap
        rw [← h2]
        exact hr

/-! ### §8  Similarity-order lemmas -/

theorem l2sq_nonneg (a b : List Rat) : 0 ≤ l2sq a b := by
  unfold l2sq
  apply List.sum_nonneg
  intro x hx
  rw [List.mem_map] at hx
  obtain ⟨p, _, hp⟩ := hx
  rw [← hp]
  positivity

instance (src : List Rat) : IsTotal StoryRow (simScoreGe src) := by
  constructor
  intro a b
  unfold simScoreGe
  exact le_total _ _

instance (src : List Rat) : IsTrans StoryRow (simScoreGe src) := by
  constructor
  intro a b c
  unfold simScoreGe
  exact le_trans

/-! ## Claim theorems -/

/-- C1 (counterexample): two inbound query-parameter lists that are equal
as sets of key/value pairs — `a=1&a=2` versus `a=2&a=1` — derive
different cache keys: a repeated key's values keep their arrival order
inside the digested value list, so sorting by key does not identify
them. -/
theorem claim_C1_counterexample :
    ((∀ x ∈ ([("a", "1"), ("a", "2")] : List (String × String)),
        x ∈ ([("a", "2"), ("a", "1")] : List (String × String))) ∧
      (∀ x ∈ ([("a", "2"), ("a", "1")] : List (String × String)),
        x ∈ ([("a", "1"), ("a", "2")] : List (String × String)))) ∧
    cache_key (groupParams [("a", "1"), ("a", "2")]) ≠
      cache_key (groupParams [("a", "2"), ("a", "1")]) := by
  constructor
  · constructor <;> decide
  · decide

/-- C1 (amended): for the parameter mapping the view digests
(`dict(request.query_params)`, keys distinct): mappings equal as
mappings — every key bound to the same ordered value list, regardless of
the arrival order of distinct parameters — derive identical cache keys;
different mappings (differing in at least one key or value, cursors
included) produce different digest-input strings, hence different cache
keys for every collision-free digest (md5's "overwhelming probability"
modelled as injectivity). -/
theorem claim_C1 (p1 p2 : Params) (h1 : KeysNodup p1) (h2 : KeysNodup p2) :
    (paramsEqual p1 p2 → cache_key p1 = cache_key p2) ∧
    (¬ paramsEqual p1 p2 →
      params_key p1 ≠ params_key p2 ∧
      ∀ digest : List Char → String, Function.Injective digest →
        cacheKeyWith digest p1 ≠ cacheKeyWith digest p2) := by
  constructor
  · exact cache_key_congr p1 p2 h1 h2
  · intro hne
    have hpk : params_key p1 ≠ params_key p2 := fun he =>
      hne (params_key_inj p1 p2 h1 h2 he)
    refine ⟨hpk, fun digest hinj he => ?_⟩
    unfold cacheKeyWith at he
    have hd := congrArg String.data he
    rw [String.data_append, String.data_append] at hd
    exact hpk (hinj (String.ext (List.append_cancel_left hd)))

/-- C1 (witness): the same two parameters arriving in either order derive
the same cache key. -/
theorem claim_C1_witness :
    cache_key [("b", ["2"]), ("a", ["1"])] =
      cache_key [("a", ["1"]), ("b", ["2"])] :=
  (claim_C1 [("b", ["2"]), ("a", ["1"])] [("a", ["1"]), ("b", ["2"])]
    (by decide) (by decide)).1 (by decide)

/-- C2: on a hit the endpoint returns the live cached payload verbatim,
consulting the computation (Repository + Pagination) not at all; on a
miss it computes the response, writes it under the computed key with the
fixed TTL 30, and returns that same response; any equivalent request
strictly less than 30 seconds later is served the written payload
field-for-field. -/
theorem claim_C2 (α : Type) (compute : Params → α)
    (entries : List (CacheEntry α)) (now : Nat) (ps : Params) :
    (∀ c, cacheGet entries now (cache_key ps) = some c →
      ∀ compute2 : Params → α, storyList compute2 entries now ps = (c, entries)) ∧
    (cacheGet entries now (cache_key ps) = none →
      storyList compute entries now ps =
        (compute ps, cacheSet entries now (cache_key ps) (compute ps) 30) ∧
      ∀ (now2 : Nat) (ps2 : Params) (compute2 : Params → α),
        KeysNodup ps → KeysNodup ps2 → paramsEqual ps ps2 → now2 < now + 30 →
        storyList compute2 (cacheSet entries now (cache_key ps) (compute ps) 30)
            now2 ps2 =
          (compute ps, cacheSet entries now (cache_key ps) (compute ps) 30)) := by
  constructor
  · intro c hc compute2
    unfold storyList
    rw [hc]
  · intro hm
    constructor
    · unfold storyList
      rw [hm]
    · intro now2 ps2 compute2 hk1 hk2 hpe hlive
      unfold storyList
      rw [← cache_key_congr ps ps2 hk1 hk2 hpe,
        cacheGet_cacheSet_live entries now now2 (cache_key ps) (compute ps) 30
          hlive]

/-- C2 (witness): a miss computes and writes through. -/
theorem claim_C2_witness :
    storyList (fun _ => (7 : Nat)) [] 0 [("a", ["1"])] =
      (7, cacheSet [] 0 (cache_key [("a", ["1"])]) 7 30) :=
  ((claim_C2 Nat (fun _ => 7) [] 0 [("a", ["1"])]).2 rfl).1

/-- C3 (counterexample): with a cache store whose read raises, the List
request fails with that error: the view wraps `cache.get` in no handler,
so nothing degrades to direct computation. -/
theorem claim_C3_counterexample :
    storyListF (fun _ => (.error () : Except Unit (Option Nat)))
      (fun _ _ _ => .ok ()) (fun _ => (.ok 0 : Except Unit Nat)) [] =
      .error (.inl ()) := rfl

/-- C3 (amended): the endpoint performs no error handling around cache
access: a raising `cache.get` or `cache.set` fails the request with that
error; only when the store reports failure silently (get returns a miss,
set silently drops — the fail-silent convention of the framework's cache
clients) does the request degrade to direct computation and succeed. -/
theorem claim_C3 (α γ : Type) (compute : Params → Except γ α) (ps : Params)
    (v : α) (h : compute ps = .ok v) :
    (storyListF (fun _ => (.ok none : Except Unit (Option α)))
      (fun _ _ _ => .ok ()) compute ps = .ok v) ∧
    (∀ (β : Type) (e : β) (cset : String → α → Nat → Except β Unit),
      storyListF (fun _ => .error e) cset compute ps = .error (.inl e)) ∧
    (∀ (β : Type) (e : β),
      storyListF (fun _ => (.ok none : Except β (Option α)))
        (fun _ _ _ => .error e) compute ps = .error (.inl e)) := by
  refine ⟨?_, fun β e cset => rfl, ?_⟩
  · unfold storyListF
    rw [h]
  · intro β e
    unfold storyListF
    rw [h]

/-- C3 (witness): a silently failing store still yields the computed
response. -/
theorem claim_C3_witness :
    storyListF (fun _ => (.ok none : Except Unit (Option Nat)))
      (fun _ _ _ => .ok ()) (fun _ => (.ok 5 : Except Unit Nat)) [] =
      .ok 5 :=
  (claim_C3 Nat Unit (fun _ => .ok 5) [] 5 rfl).1

/-- C10: on a cache miss whose computation raises, the error propagates
and `cache.set` is never reached: the cache state is returned unchanged,
so an error payload is never written to — and hence never served
from — the cache. -/
theorem claim_C10 (α γ : Type) (compute : Params → Except γ α)
    (entries : List (CacheEntry α)) (now : Nat) (ps : Params) (e : γ)
    (hmiss : cacheGet entries now (cache_key ps) = none)
    (herr : compute ps = .error e) :
    storyListE compute entries now ps = (.error e, entries) := by
  unfold storyListE
  rw [hmiss, herr]

/-- C10 (witness): a failing computation leaves the empty cache empty. -/
theorem claim_C10_witness :
    storyListE (fun _ => (.error 3 : Except Nat Nat)) [] 0 [] =
      (.error 3, []) :=
  claim_C10 Nat Nat (fun _ => .error 3) [] 0 [] 3 rfl rfl

/-- C4: a `story_id` resolving to no Story yields NotFound (`none`) on the
Detail endpoint and a successful empty result page on the Similar
endpoint; a source story that exists but has a null embedding likewise
yields a successful empty result page. -/
theorem claim_C4 (db : Database) (sid : String) :
    (db.stories.find? (fun s => s.story_id = sid) = none →
      storyDetail db sid = none ∧
      similarEndpoint db sid 1 none = some ⟨0, []⟩) ∧
    (∀ src, db.stories.find? (fun s => s.story_id = sid) = some src →
      src.embedding = none →
      similarEndpoint db sid 1 none = some ⟨0, []⟩) := by
  constructor
  · intro h
    constructor
    · unfold storyDetail
      rw [h]
      rfl
    · unfold similarEndpoint storySimilarQueryset
      rw [h]
      rfl
  · intro src hfind hemb
    unfold similarEndpoint storySimilarQueryset
    rw [hfind]
    dsimp only []
    rw [hemb]
    rfl

/-- C4 (witness): an unknown `story_id` 404s on Detail and serves an empty
page on Similar. -/
theorem claim_C4_witness :
    storyDetail wDb "zzz" = none ∧
    similarEndpoint wDb "zzz" 1 none = some ⟨0, []⟩ :=
  (claim_C4 wDb "zzz").1 (by decide)

/-- C5: for an existing source story with a non-null embedding, the
Similar result set consists of exactly the stories other than the source
whose embedding is non-null: a row is a result iff its story is in the
datastore, its embedding is non-null, its `story_id` differs from the
source's, and it carries its resolved annotated owner. -/
theorem claim_C5 (db : Database) (sid : String) (src : StoryR) (e : List Rat)
    (hfind : db.stories.find? (fun s => s.story_id = sid) = some src)
    (hemb : src.embedding = some e) (row : StoryRow) :
    row ∈ storySimilarQueryset db sid ↔
      row.story ∈ db.stories ∧ row.story.embedding.isSome = true ∧
        row.story.story_id ≠ sid ∧
        resolveUser db row.story = some row.user :=
  mem_storySimilarQueryset db sid src e hfind hemb row

/-- C5 (witness): the embedded non-source story is a result; by the same
equivalence the source itself and the embedding-less story are not. -/
theorem claim_C5_witness :
    (⟨wStory2, annotateUser wDb wUser1⟩ : StoryRow) ∈
      storySimilarQueryset wDb "s1" :=
  (claim_C5 wDb "s1" wStory1 [0, 0] (by decide) (by decide)
    ⟨wStory2, annotateUser wDb wUser1⟩).mpr (by decide)

/-- C6: ordering descending by the annotated
`similarity_score = 1 − L2Distance(embedding, source)` is equivalent to
ascending L2 (Euclidean) distance: the comparator holds between two
candidates iff their real scores compare descending iff their real
distances compare ascending; the emitted list is sorted by ascending
real distance; ties are resolved by the stable sort from the candidates'
datastore order, a deterministic function of the dataset. -/
theorem claim_C6 (db : Database) (sid : String) (src : StoryR) (e : List Rat)
    (hfind : db.stories.find? (fun s => s.story_id = sid) = some src)
    (hemb : src.embedding = some e) :
    (∀ a b : StoryRow, simScoreGe e a b ↔
      ((1 : ℝ) - Real.sqrt ((l2sq e (b.story.embedding.getD []) : ℚ) : ℝ) ≤
        (1 : ℝ) - Real.sqrt ((l2sq e (a.story.embedding.getD []) : ℚ) : ℝ))) ∧
    (∀ a b : StoryRow, simScoreGe e a b ↔
      Real.sqrt ((l2sq e (a.story.embedding.getD []) : ℚ) : ℝ) ≤
        Real.sqrt ((l2sq e (b.story.embedding.getD []) : ℚ) : ℝ)) ∧
    List.Sorted (fun a b : StoryRow =>
      Real.sqrt ((l2sq e (a.story.embedding.getD []) : ℚ) : ℝ) ≤
        Real.sqrt ((l2sq e (b.story.embedding.getD []) : ℚ) : ℝ))
      (storySimilarQueryset db sid) := by
  have hiff : ∀ a b : StoryRow, simScoreGe e a b ↔
      Real.sqrt ((l2sq e (a.story.embedding.getD []) : ℚ) : ℝ) ≤
        Real.sqrt ((l2sq e (b.story.embedding.getD []) : ℚ) : ℝ) := by
    intro a b
    unfold simScoreGe
    rw [Real.sqrt_le_sqrt_iff (by
      rw [← Rat.cast_zero]
      exact Rat.cast_le.mpr (l2sq_nonneg e (b.story.embedding.getD [])))]
    rw [Rat.cast_le]
  refine ⟨?_, hiff, ?_⟩
  · intro a b
    rw [hiff a b, sub_le_sub_iff_left]
  · unfold storySimilarQueryset
    rw [hfind]
    dsimp only []
    rw [hemb]
    dsimp only []
    exact (List.sorted_insertionSort (simScoreGe e) _).imp
      (fun hab => (hiff _ _).mp hab)

/-- C6 (witness): the concrete Similar listing is sorted by ascending real
distance to the source embedding. -/
theorem claim_C6_witness :
    List.Sorted (fun a b : StoryRow =>
      Real.sqrt ((l2sq [0, 0] (a.story.embedding.getD []) : ℚ) : ℝ) ≤
        Real.sqrt ((l2sq [0, 0] (b.story.embedding.getD []) : ℚ) : ℝ))
      (storySimilarQueryset wDb "s1") :=
  (claim_C6 wDb "s1" wStory1 [0, 0] (by decide) (by decide)).2.2

/-- C7 (counterexample): `page_size=0` is a client-supplied page size, yet
the effective page size falls back to the default 20 rather than
`min(0, 100) = 0`. -/
theorem claim_C7_counterexample :
    effectivePageSize (some 0) = 20 ∧
    effectivePageSize (some 0) ≠ min 0 100 := by
  constructor <;> decide

/-- C7 (amended): with no `page_size` both endpoints serve at most the
default 20 results; for every client-supplied `page_size ≥ 1` the
effective page size is `min(requested, 100)` — so `page_size=200` serves
at most 100 — while a request below 1 falls back to the default. -/
theorem claim_C7 (α : Type) (rows : List α) (page r : Nat) (hr : 1 ≤ r) :
    (cursorFirstPage rows none).length ≤ 20 ∧
    (∀ resp : PageResponse α, numberedPage rows page none = some resp →
      resp.results.length ≤ 20) ∧
    effectivePageSize (some r) = min r 100 ∧
    (cursorFirstPage rows (some r)).length ≤ min r 100 ∧
    (∀ resp : PageResponse α, numberedPage rows page (some r) = some resp →
      resp.results.length ≤ min r 100) := by
  have hsize : effectivePageSize (some r) = min r 100 := by
    unfold effectivePageSize
    dsimp only []
    rw [if_neg (by omega)]
  refine ⟨?_, ?_, hsize, ?_, ?_⟩
  · unfold cursorFirstPage
    rw [List.length_take]
    exact min_le_left _ _
  · intro resp h
    unfold numberedPage at h
    split_ifs at h with hc
    rw [← Option.some.inj h]
    dsimp only []
    rw [List.length_take]
    exact min_le_left _ _
  · unfold cursorFirstPage
    rw [List.length_take, hsize]
    exact min_le_left _ _
  · intro resp h
    unfold numberedPage at h
    split_ifs at h with hc
    rw [← Option.some.inj h]
    dsimp only []
    rw [List.length_take, hsize]
    exact min_le_left _ _

/-- C7 (witness): a `page_size=200` request serves at most 100 of 150
rows, the effective size being `min(200, 100)`. -/
theorem claim_C7_witness :
    (cursorFirstPage (List.range 150) (some 200)).length ≤ min 200 100 ∧
    effectivePageSize (some 200) = min 200 100 := by
  have h := claim_C7 Nat (List.range 150) 1 200 (by decide)
  exact ⟨h.2.2.2.1, h.2.2.1⟩

/-- C8: for every User attached to any result of the three endpoints, the
annotated `has_stories` is true iff at least one Story in the
request-time datastore references that user, and `has_history` is true
iff at least one history record exists for that user. -/
theorem claim_C8 (db : Database) (search : Option String) (uf : Option Nat)
    (sid sid2 : String) :
    (∀ row ∈ storyListQueryset db search uf,
      (row.user.has_stories = true ↔
        ∃ s ∈ db.stories, s.userId = row.user.user.pk) ∧
      (row.user.has_history = true ↔
        ∃ h ∈ db.history, h.uuid = row.user.user.pk)) ∧
    (∀ row, storyDetail db sid = some row →
      (row.user.has_stories = true ↔
        ∃ s ∈ db.stories, s.userId = row.user.user.pk) ∧
      (row.user.has_history = true ↔
        ∃ h ∈ db.history, h.uuid = row.user.user.pk)) ∧
    (∀ row ∈ storySimilarQueryset db sid2,
      (row.user.has_stories = true ↔
        ∃ s ∈ db.stories, s.userId = row.user.user.pk) ∧
      (row.user.has_history = true ↔
        ∃ h ∈ db.history, h.uuid = row.user.user.pk)) := by
  have key : ∀ row : StoryRow, resolveUser db row.story = some row.user →
      (row.user.has_stories = true ↔
        ∃ s ∈ db.stories, s.userId = row.user.user.pk) ∧
      (row.user.has_history = true ↔
        ∃ h ∈ db.history, h.uuid = row.user.user.pk) := by
    intro row hr
    have ha := resolveUser_annotate db row.story row.user hr
    constructor
    · rw [ha]
      exact annotateUser_has_stories db row.user.user
    · rw [ha]
      exact annotateUser_has_history db row.user.user
  refine ⟨?_, ?_, ?_⟩
  · intro row hrow
    exact key row
      ((mem_joinRows db row).mp
        (mem_of_mem_storyListQueryset db search uf row hrow)).2
  · intro row hrow
    exact key row (storyDetail_resolve db sid row hrow)
  · intro row hrow
    exact key row (mem_storySimilarQueryset_resolve db sid2 row hrow)

/-- C8 (witness): the flags of the user attached to a concrete List result
reflect the current data. -/
theorem claim_C8_witness :
    ((⟨wStory1, annotateUser wDb wUser1⟩ : StoryRow).user.has_stories = true ↔
      ∃ s ∈ wDb.stories,
        s.userId = (⟨wStory1, annotateUser wDb wUser1⟩ : StoryRow).user.user.pk) ∧
    ((⟨wStory1, annotateUser wDb wUser1⟩ : StoryRow).user.has_history = true ↔
      ∃ h ∈ wDb.history,
        h.uuid = (⟨wStory1, annotateUser wDb wUser1⟩ : StoryRow).user.user.pk) :=
  (claim_C8 wDb none none "x" "y").1 ⟨wStory1, annotateUser wDb wUser1⟩
    (by decide)

/-- C9: a story is in the searched List result iff it is in the unsearched
List result and the search string matches, case-insensitively as a
substring, the owning user's `username`, `full_name` OR `biography`
(logical OR across the three fields, per `matchesSearch`). -/
theorem claim_C9 (db : Database) (q : String) (row : StoryRow) :
    row ∈ storyListQueryset db (some q) none ↔
      row ∈ storyListQueryset db none none ∧
        matchesSearch q row.user.user = true := by
  unfold storyListQueryset applySearch applyUserFilter
  dsimp only []
  exact List.mem_filter

/-- C9 (witness): search `"doe"` matches the story owned by `JohnDoe`
case-insensitively. -/
theorem claim_C9_witness :
    (⟨wStory1, annotateUser wDb wUser1⟩ : StoryRow) ∈
      storyListQueryset wDb (some "doe") none :=
  (claim_C9 wDb "doe" ⟨wStory1, annotateUser wDb wUser1⟩).mpr (by decide)

end InstArchiver
